import Mathlib

/-!
# Verification of the MACI off-chain state engine and proof orchestration

Shallow embedding of `src/core/ts/MaciState.ts` (the `MaciState` class and the
`ProofGeneratorService.generate` orchestration routine) together with the
external collaborators the spec treats as primitives (the incremental quinary
Merkle accumulator, `StateLeaf`/`Poll` domain objects, hash functions).

Conventions of the embedding:
* TypeScript `bigint`/`number` values that are always non-negative are `Nat`.
* Optional TS fields (`pollBeingProcessed?`, `currentPollBeingProcessed?`) are
  `Option` values; `NaN` (arising from `Number.parseInt("")`) is identified
  with `none`, which is sound because the only reads of the field in scope
  (`toJSON`'s truthiness test) treat `NaN` and `undefined` identically.
* Operations that can throw in TS return `Option`/`Except`: a `null` poll in
  the registry makes `copy`, `equals` and `toJSON` dereference `null`, and an
  accumulator insertion beyond capacity throws.
-/

namespace Maci

/-- Modelled from the spec: `hash5` is an external hash primitive from the
crypto library (not under `src/`); we model it as a concrete injective
combination of its five field inputs via Cantor pairing. Every claim treated
here depends only on the hash being a deterministic function. -/
def hash5 (a b c d e : Nat) : Nat :=
  Nat.pair (Nat.pair (Nat.pair a b) (Nat.pair c d)) e

/-- An EdDSA public key (two field coordinates), as in `maci-domainobjs`. -/
structure PubKey where
  x : Nat
  y : Nat
deriving DecidableEq, Repr

/-- Modelled from the spec: public-key derivation from a private key is an
external crypto primitive; modelled as a fixed injective function. -/
def derivePubKey (sk : Nat) : PubKey :=
  ⟨Nat.pair sk 0, Nat.pair sk 1⟩

/-- A state leaf: one signed-up voter (public key, voice-credit balance,
sign-up timestamp), as in `maci-domainobjs`. -/
structure StateLeaf where
  pubKey : PubKey
  voiceCreditBalance : Nat
  timestamp : Nat
deriving DecidableEq, Repr

/-- `StateLeaf.copy`: a deep copy; under value semantics this rebuilds the
same record field by field. -/
def StateLeaf.copy (l : StateLeaf) : StateLeaf :=
  ⟨⟨l.pubKey.x, l.pubKey.y⟩, l.voiceCreditBalance, l.timestamp⟩

/-- `StateLeaf.equals`: structural field-wise comparison. -/
def StateLeaf.equals (a b : StateLeaf) : Bool :=
  a.pubKey.x == b.pubKey.x && a.pubKey.y == b.pubKey.y &&
    a.voiceCreditBalance == b.voiceCreditBalance && a.timestamp == b.timestamp

/-- Modelled from the spec: the leaf hash used when inserting into the
accumulator (`stateLeaf.hash()` in `maci-domainobjs`). -/
def StateLeaf.hash (l : StateLeaf) : Nat :=
  hash5 l.pubKey.x l.pubKey.y l.voiceCreditBalance l.timestamp 0

/-- Modelled from the spec: the reserved blank leaf — zero/sentinel public
key, zero balance, zero timestamp — inserted at index 0 of every state tree. -/
def blankStateLeaf : StateLeaf := ⟨⟨0, 0⟩, 0, 0⟩

/-- The protocol-wide blank-leaf-hash constant. -/
def blankStateLeafHash : Nat := blankStateLeaf.hash

/-- The arity of the state tree (`STATE_TREE_ARITY` in `utils/constants`);
the source comment calls the tree quinary. -/
def STATE_TREE_ARITY : Nat := 5

/-- Modelled from the spec: the incremental accumulator (maci-crypto's
`IncrementalQuinTree`) — a fixed-arity, fixed-depth, append-only Merkle tree.
We record the configuration and the ordered insertion log; the root is
recomputed from the log. -/
structure IncrementalQuinTree where
  depth : Nat
  zeroValue : Nat
  arity : Nat
  leaves : List Nat
deriving DecidableEq, Repr

/-- The capacity of the accumulator: `arity ^ depth` leaves. -/
def IncrementalQuinTree.capacity (t : IncrementalQuinTree) : Nat :=
  t.arity ^ t.depth

/-- Modelled from the spec: append-only insertion; insertion beyond the
configured depth's capacity fails (`CapacityExceeded`). -/
def IncrementalQuinTree.insert (t : IncrementalQuinTree) (v : Nat) :
    Option IncrementalQuinTree :=
  if t.leaves.length < t.capacity then
    some { t with leaves := t.leaves ++ [v] }
  else
    none

/-- Insert a list of values left to right, failing as soon as one insertion
fails. -/
def IncrementalQuinTree.insertMany (t : IncrementalQuinTree) :
    List Nat → Option IncrementalQuinTree
  | [] => some t
  | v :: vs => (t.insert v).bind fun t1 => t1.insertMany vs

/-- Hash one chunk of up to `arity` nodes, padding with the zero value of the
current level. -/
def levelHash (z : Nat) (chunk : List Nat) : Nat :=
  hash5 (chunk.getD 0 z) (chunk.getD 1 z) (chunk.getD 2 z) (chunk.getD 3 z)
    (chunk.getD 4 z)

/-- Split a list into chunks of five (a final chunk may be shorter). -/
def chunk5 : List Nat → List (List Nat)
  | [] => []
  | a :: b :: c :: d :: e :: rest => [a, b, c, d, e] :: chunk5 rest
  | l => [l]

/-- Fold one level of leaves up to the next level. -/
def rootAux : Nat → Nat → List Nat → Nat
  | z, 0, l => l.headD z
  | z, k + 1, l => rootAux (hash5 z z z z z) k ((chunk5 l).map (levelHash z))

/-- Modelled from the spec: the Merkle root, a deterministic, order-dependent
function of the insertion log (empty positions padded with per-level zero
values). -/
def IncrementalQuinTree.root (t : IncrementalQuinTree) : Nat :=
  rootAux t.zeroValue t.depth t.leaves

/-- A coordinator keypair (`maci-domainobjs`). -/
structure Keypair where
  privKey : Nat
  pubKey : PubKey
deriving DecidableEq, Repr

/-- Tree-depth configuration of a poll (`utils/types`). -/
structure TreeDepths where
  intStateTreeDepth : Nat
  messageTreeSubDepth : Nat
  messageTreeDepth : Nat
  voteOptionTreeDepth : Nat
deriving DecidableEq, Repr

/-- Maximum-value configuration of a poll (`utils/types`). -/
structure MaxValues where
  maxMessages : Nat
  maxVoteOptions : Nat
deriving DecidableEq, Repr

/-- Batch-size configuration of a poll. -/
structure BatchSizes where
  messageBatchSize : Nat
  subsidyBatchSize : Nat
  tallyBatchSize : Nat
deriving DecidableEq, Repr

/-- Modelled from the spec: a `Poll` (its own state machine is a separately
specified component; the claims treated here use only its identity as plain
data): end timestamp, coordinator keypair, tree depths, derived batch sizes
and maximum values. The back-reference to the owning `MaciState` is
non-owning pure context and is not part of the poll's data. -/
structure Poll where
  pollEndTimestamp : Nat
  coordinatorKeypair : Keypair
  treeDepths : TreeDepths
  batchSizes : BatchSizes
  maxValues : MaxValues
deriving DecidableEq, Repr

/-- Modelled from the spec: `Poll.copy` is a recursive deep copy producing an
equal, independent poll; under value semantics it is the identity on the
data. -/
def Poll.copy (p : Poll) : Poll := p

/-- Modelled from the spec: `Poll.equals` is structural equality of the
poll's data (comparing its configuration and nested state). -/
def Poll.equals (p q : Poll) : Bool := p == q

/-- JSON mirror of a state leaf. Modelled from the spec: the external leaf
serialization round-trips canonically; the mirror keeps the numeric fields. -/
structure JsonStateLeaf where
  pubKeyX : Nat
  pubKeyY : Nat
  voiceCreditBalance : Nat
  timestamp : Nat
deriving DecidableEq, Repr

/-- `StateLeaf.toJSON`. -/
def StateLeaf.toJSON (l : StateLeaf) : JsonStateLeaf :=
  ⟨l.pubKey.x, l.pubKey.y, l.voiceCreditBalance, l.timestamp⟩

/-- `StateLeaf.fromJSON`. -/
def JsonStateLeaf.toLeaf (j : JsonStateLeaf) : StateLeaf :=
  ⟨⟨j.pubKeyX, j.pubKeyY⟩, j.voiceCreditBalance, j.timestamp⟩

/-- JSON mirror of a poll. Modelled from the spec: each poll is serialized
recursively with its own fields and the serialization round-trips. -/
structure JsonPoll where
  pollEndTimestamp : Nat
  coordinatorKeypair : Keypair
  treeDepths : TreeDepths
  batchSizes : BatchSizes
  maxValues : MaxValues
deriving DecidableEq, Repr

/-- `Poll.toJSON`. -/
def Poll.toJSON (p : Poll) : JsonPoll :=
  ⟨p.pollEndTimestamp, p.coordinatorKeypair, p.treeDepths, p.batchSizes,
    p.maxValues⟩

/-- `Poll.fromJSON` (the maci-state back-reference it re-attaches is
non-owning context, not data). -/
def JsonPoll.toPoll (j : JsonPoll) : Poll :=
  ⟨j.pollEndTimestamp, j.coordinatorKeypair, j.treeDepths, j.batchSizes,
    j.maxValues⟩

/-- Decimal printing of a natural number (the behaviour of TS
`Number.prototype.toString` on a non-negative integer); built on
`Nat.digits` so that the parse/print round trip is provable. `0` prints as
the empty string, but the serializer only prints truthy (non-zero) values. -/
def natToDecimal (n : Nat) : String :=
  ⟨((Nat.digits 10 n).map Nat.digitChar).reverse⟩

/-- The behaviour of TS `Number.parseInt(s, 10)` on the strings the
serializer emits: a non-empty all-digit string parses to its value, anything
else (in particular `""`) gives `NaN`, identified with `none`. -/
def parseIntTS (s : String) : Option Nat :=
  if s.data ≠ [] ∧ s.data.all (fun c => c.isDigit) then
    some (s.data.foldl (fun acc c => acc * 10 + (c.toNat - 48)) 0)
  else
    none

/-- The serialized form of the optional `currentPollBeingProcessed` index:
`x ? x.toString() : ""` — both `undefined`/`NaN` (`none`) and the falsy
number `0` print as the empty string. -/
def cpbpToString : Option Nat → String
  | none => ""
  | some 0 => ""
  | some (n + 1) => natToDecimal (n + 1)

/-- The serialized `MaciState` record (`IJsonMaciState` in `utils/types`). -/
structure IJsonMaciState where
  stateTreeDepth : Nat
  polls : List JsonPoll
  stateLeaves : List JsonStateLeaf
  pollBeingProcessed : Bool
  currentPollBeingProcessed : String
  numSignUps : Nat
deriving DecidableEq, Repr

/-- Errors of the state engine surfaced by the claims. -/
inductive MaciError
  | capacityExceeded
deriving DecidableEq, Repr

/-- The `MaciState` class: poll registry (a deployed slot may hold `null`),
sign-up accumulator, state leaves, tree depth, sign-up counter and the
which-poll-is-being-processed bookkeeping. -/
structure MaciState where
  polls : List (Option Poll)
  stateTree : IncrementalQuinTree
  stateLeaves : List StateLeaf
  stateTreeDepth : Nat
  numSignUps : Nat
  pollBeingProcessed : Option Bool
  currentPollBeingProcessed : Option Nat
deriving DecidableEq, Repr

/-- The `MaciState` constructor: build the accumulator with the blank-leaf
hash as zero value, push the blank leaf, insert its hash (this first
insertion always succeeds since the capacity `5 ^ depth` is at least one)
and count it in `numSignUps`. -/
def MaciState.init (stateTreeDepth : Nat) : MaciState where
  polls := []
  stateTree :=
    ⟨stateTreeDepth, blankStateLeafHash, STATE_TREE_ARITY, [blankStateLeafHash]⟩
  stateLeaves := [blankStateLeaf]
  stateTreeDepth := stateTreeDepth
  numSignUps := 1
  pollBeingProcessed := none
  currentPollBeingProcessed := none

/-- `MaciState.signUp`: increment `numSignUps`, build the leaf, insert its
hash into the accumulator (propagating the capacity failure), push a copy of
the leaf, and return the new length minus one. -/
def MaciState.signUp (S : MaciState) (pubKey : PubKey)
    (initialVoiceCreditBalance timestamp : Nat) :
    Except MaciError (MaciState × Nat) :=
  match S.stateTree.insert
      (StateLeaf.hash ⟨pubKey, initialVoiceCreditBalance, timestamp⟩) with
  | none => .error .capacityExceeded
  | some tree =>
      .ok ({ S with
              numSignUps := S.numSignUps + 1
              stateTree := tree
              stateLeaves := S.stateLeaves ++
                [StateLeaf.copy ⟨pubKey, initialVoiceCreditBalance, timestamp⟩] },
            S.stateLeaves.length)

/-- `MaciState.deployPoll`: build the poll with the subsidy and tally batch
sizes both derived as `STATE_TREE_ARITY ^ intStateTreeDepth`, append it to
the registry and return its index. -/
def MaciState.deployPoll (S : MaciState) (pollEndTimestamp : Nat)
    (maxValues : MaxValues) (treeDepths : TreeDepths)
    (messageBatchSize : Nat) (coordinatorKeypair : Keypair) :
    MaciState × Nat :=
  let poll : Poll :=
    ⟨pollEndTimestamp, coordinatorKeypair, treeDepths,
      ⟨messageBatchSize, STATE_TREE_ARITY ^ treeDepths.intStateTreeDepth,
        STATE_TREE_ARITY ^ treeDepths.intStateTreeDepth⟩,
      maxValues⟩
  ({ S with polls := S.polls ++ [some poll] }, S.polls.length)

/-- `MaciState.deployNullPoll`: push a `null` placeholder slot. -/
def MaciState.deployNullPoll (S : MaciState) : MaciState :=
  { S with polls := S.polls ++ [none] }

/-- TS `array.map` over the poll registry where the mapped operation is a
method call on the element: a `null` element makes the whole map throw
(`none`). -/
def mapOrThrow {β : Type} (f : Poll → β) : List (Option Poll) → Option (List β)
  | [] => some []
  | none :: _ => none
  | some p :: rest => (mapOrThrow f rest).map (f p :: ·)

/-- `MaciState.copy`: construct a fresh `MaciState` of the same depth, then
overwrite its leaves with copies of this state's leaves and its polls with
copies of this state's polls. Calling `.copy()` on a `null` poll slot throws
(`none`). Note the fresh constructor's accumulator and `numSignUps` are kept
as-is. -/
def MaciState.copy (S : MaciState) : Option MaciState :=
  (mapOrThrow Poll.copy S.polls).map fun ps =>
    { MaciState.init S.stateTreeDepth with
        stateLeaves := S.stateLeaves.map StateLeaf.copy
        polls := ps.map some }

/-- The poll-comparison loop of `MaciState.equals`: calling `.equals` on (or
with) a `null` poll dereferences `null` (`none`); a `false` comparison
short-circuits. -/
def pollsEqLoop : List (Option Poll) → List (Option Poll) → Option Bool
  | [], _ => some true
  | none :: _, _ => none
  | some _ :: _, [] => none
  | some _ :: _, none :: _ => none
  | some p :: ps, some q :: qs =>
      if Poll.equals p q then pollsEqLoop ps qs else some false

/-- The leaf-comparison loop of `MaciState.equals`. -/
def leavesEqLoop : List StateLeaf → List StateLeaf → Option Bool
  | [], _ => some true
  | _ :: _, [] => none
  | l :: ls, l1 :: ls1 =>
      if StateLeaf.equals l l1 then leavesEqLoop ls ls1 else some false

/-- `MaciState.equals`: compare tree depth, poll count and leaf count, then
the polls pairwise and the leaves pairwise. `numSignUps`, the accumulator,
`pollBeingProcessed` and `currentPollBeingProcessed` are not inspected. -/
def MaciState.equals (S T : MaciState) : Option Bool :=
  if S.stateTreeDepth = T.stateTreeDepth ∧ S.polls.length = T.polls.length ∧
      S.stateLeaves.length = T.stateLeaves.length then
    match pollsEqLoop S.polls T.polls with
    | none => none
    | some false => some false
    | some true => leavesEqLoop S.stateLeaves T.stateLeaves
  else
    some false

/-- `MaciState.toJSON`: serialize depth, polls (dereferencing a `null` poll
throws, `none`), leaves, `Boolean(pollBeingProcessed)`, the truthy-guarded
decimal string of `currentPollBeingProcessed`, and `numSignUps`. -/
def MaciState.toJSON (S : MaciState) : Option IJsonMaciState :=
  (mapOrThrow Poll.toJSON S.polls).map fun ps =>
    { stateTreeDepth := S.stateTreeDepth
      polls := ps
      stateLeaves := S.stateLeaves.map StateLeaf.toJSON
      pollBeingProcessed := S.pollBeingProcessed.getD false
      currentPollBeingProcessed := cpbpToString S.currentPollBeingProcessed
      numSignUps := S.numSignUps }

/-- `MaciState.fromJSON`: construct a fresh state of the serialized depth,
overwrite the leaves, bookkeeping fields and `numSignUps` from the record,
re-insert the hash of every serialized leaf except index 0 into the fresh
accumulator (the blank leaf was already inserted by the constructor; an
insertion beyond capacity throws, `none`), and rebuild the polls. -/
def MaciState.fromJSON (json : IJsonMaciState) : Option MaciState :=
  ((MaciState.init json.stateTreeDepth).stateTree.insertMany
      ((json.stateLeaves.drop 1).map fun jl => jl.toLeaf.hash)).map fun tree =>
    { MaciState.init json.stateTreeDepth with
        stateLeaves := json.stateLeaves.map JsonStateLeaf.toLeaf
        pollBeingProcessed := some json.pollBeingProcessed
        currentPollBeingProcessed := parseIntTS json.currentPollBeingProcessed
        numSignUps := json.numSignUps
        stateTree := tree
        polls := json.polls.map fun jp => some jp.toPoll }

/-- The state leaf built from one sign-up argument triple. -/
def mkLeaf (x : PubKey × Nat × Nat) : StateLeaf := ⟨x.1, x.2.1, x.2.2⟩

/-- Replay a list of sign-ups (public key, balance, timestamp) left to
right, collecting the returned indices. -/
def MaciState.signUpMany (S : MaciState) :
    List (PubKey × Nat × Nat) → Except MaciError (MaciState × List Nat)
  | [] => .ok (S, [])
  | (pk, b, t) :: rest =>
      match S.signUp pk b t with
      | .error e => .error e
      | .ok (S1, i) =>
          match S1.signUpMany rest with
          | .error e => .error e
          | .ok (S2, is) => .ok (S2, i :: is)

/-! ## Proof orchestration (`ProofGeneratorService.generate`)

The routine is a fail-fast sequence of reads of external collaborators
(chain, key store, crypto service, proof backend). We model the external
world as a record of the values those reads return, and instrument the
routine with an ordered trace of the external operations it performs, so
that "the proof backend is never invoked" and "before any chain event scan"
are statable. -/

/-- The error codes thrown by `ProofGeneratorService.generate`
(`ErrorCodes` in `common`), plus a variant for a coordinator private key
that fails to decrypt/deserialize (surfaced as a raw exception in TS). -/
inductive OrchError
  | pollNotFound
  | notMergedStateTree
  | notMergedMessageTree
  | privateKeyMismatch
  | keyDecryptFailure
deriving DecidableEq, Repr

/-- The externally observable operations of one `generate` invocation, in
program order. -/
inductive OrchEffect
  | readPollAddress
  | readExtContracts
  | readCoordinatorPubKey
  | readStateMerged
  | readTreeDepths
  | readMainRoot
  | readPrivateKeyFile
  | decryptKey
  | eventScan
  | backendMpProofs
  | backendTallyProofs
deriving DecidableEq, Repr

/-- The environment of one invocation: what the chain, key store and
reconstruction would answer. The zero address is `0`; `decryptedKey` is the
outcome of decrypting and deserializing the coordinator private key
(`none` = failure); `preparedPollIds` are the poll ids present in the
reconstructed `MaciState`. -/
structure OrchEnv where
  pollAddress : Nat
  coordinatorPubKeyOnChain : PubKey
  stateMerged : Bool
  messageTreeDepth : Nat
  mainRoot : Nat
  decryptedKey : Option Nat
  preparedPollIds : List Nat
  mpProofs : Nat
  tallyProofs : Nat
  tallyData : Nat
deriving DecidableEq, Repr

/-- The result bundle of a successful invocation. -/
structure IGenerateData where
  processProofs : Nat
  tallyProofs : Nat
  tallyData : Nat
deriving DecidableEq, Repr

/-- `ProofGeneratorService.generate`, step for step: resolve the poll
address (zero address fails `POLL_NOT_FOUND`); read the poll's external
contracts and coordinator public key; require the state-merged flag
(`NOT_MERGED_STATE_TREE`); read the tree depths and the message
accumulator's main root, requiring it non-zero (`NOT_MERGED_MESSAGE_TREE`);
fetch and decrypt the coordinator private key and require the derived
public key to equal the on-chain one (`PRIVATE_KEY_MISMATCH`); reconstruct
the state by scanning chain events; look the poll up in the reconstructed
state (`POLL_NOT_FOUND`); then request message-processing proofs and tally
proofs from the backend. -/
def generate (pollId : Nat) (env : OrchEnv) :
    Except OrchError IGenerateData × List OrchEffect :=
  let t0 := [OrchEffect.readPollAddress]
  if env.pollAddress = 0 then
    (.error .pollNotFound, t0)
  else
    let t1 := t0 ++ [OrchEffect.readExtContracts,
      OrchEffect.readCoordinatorPubKey, OrchEffect.readStateMerged]
    if env.stateMerged = false then
      (.error .notMergedStateTree, t1)
    else
      let t2 := t1 ++ [OrchEffect.readTreeDepths, OrchEffect.readMainRoot]
      if env.mainRoot = 0 then
        (.error .notMergedMessageTree, t2)
      else
        let t3 := t2 ++ [OrchEffect.readPrivateKeyFile, OrchEffect.decryptKey]
        match env.decryptedKey with
        | none => (.error .keyDecryptFailure, t3)
        | some sk =>
            if derivePubKey sk = env.coordinatorPubKeyOnChain then
              let t4 := t3 ++ [OrchEffect.eventScan]
              if pollId ∈ env.preparedPollIds then
                (.ok ⟨env.mpProofs, env.tallyProofs, env.tallyData⟩,
                  t4 ++ [OrchEffect.backendMpProofs,
                    OrchEffect.backendTallyProofs])
              else
                (.error .pollNotFound, t4)
            else
              (.error .privateKeyMismatch, t3)

/-! ## Reachability

Reachable states: those produced by the constructor followed by any
sequence of the public `MaciState` operations (successful sign-ups, poll
deployments, deep copies, and a serialize/deserialize round trip). -/

/-- States built by construction followed by sign-ups and (non-null) poll
deployments only. -/
inductive BuiltSD : MaciState → Prop
  | init (d : Nat) : BuiltSD (MaciState.init d)
  | signUp {S S' : MaciState} {pk : PubKey} {b t i : Nat} :
      BuiltSD S → S.signUp pk b t = .ok (S', i) → BuiltSD S'
  | deployPoll {S : MaciState} (e : Nat) (mv : MaxValues) (td : TreeDepths)
      (mb : Nat) (kp : Keypair) :
      BuiltSD S → BuiltSD (S.deployPoll e mv td mb kp).1

/-- States reachable through every public operation. -/
inductive Reachable : MaciState → Prop
  | init (d : Nat) : Reachable (MaciState.init d)
  | signUp {S S' : MaciState} {pk : PubKey} {b t i : Nat} :
      Reachable S → S.signUp pk b t = .ok (S', i) → Reachable S'
  | deployPoll {S : MaciState} (e : Nat) (mv : MaxValues) (td : TreeDepths)
      (mb : Nat) (kp : Keypair) :
      Reachable S → Reachable (S.deployPoll e mv td mb kp).1
  | deployNullPoll {S : MaciState} :
      Reachable S → Reachable S.deployNullPoll
  | copy {S C : MaciState} :
      Reachable S → S.copy = some C → Reachable C
  | roundTrip {S S' : MaciState} {j : IJsonMaciState} :
      Reachable S → S.toJSON = some j → MaciState.fromJSON j = some S' →
      Reachable S'

/-! ## Concrete sample states

Small executable scenarios used to witness the theorems and to exhibit
counterexamples. -/

/-- A sample user public key. -/
def exPk : PubKey := ⟨1, 2⟩

/-- A second sample user public key. -/
def exPk2 : PubKey := ⟨3, 4⟩

/-- The state after one sign-up on a freshly constructed depth-1 state. -/
def exS1 : MaciState :=
  (((MaciState.init 1).signUp exPk 100 7).toOption.getD
    (MaciState.init 1, 0)).1

/-- The copy of `exS1`. -/
def exC1 : MaciState := exS1.copy.getD exS1

/-- The depth-1 state after four sign-ups: its accumulator holds five
leaves, its full capacity. -/
def exFull : MaciState :=
  (((MaciState.init 1).signUpMany
      [(exPk, 100, 7), (exPk, 100, 7), (exPk, 100, 7), (exPk, 100, 7)]
    ).toOption.getD (MaciState.init 1, [])).1

/-- The copy of the full state: its fresh accumulator holds only the blank
leaf again. -/
def exFullCopy : MaciState := exFull.copy.getD exFull

/-- One more sign-up on the copy of the full state: the copied accumulator
accepts it, pushing the leaf list beyond the accumulator capacity. -/
def exOver : MaciState :=
  ((exFullCopy.signUp exPk2 50 8).toOption.getD (exFullCopy, 0)).1

/-- The serialized form of `exOver`. -/
def exOverJson : IJsonMaciState :=
  exOver.toJSON.getD ⟨0, [], [], false, "", 0⟩

/-- The serialized form of `exS1`. -/
def exS1Json : IJsonMaciState :=
  exS1.toJSON.getD ⟨0, [], [], false, "", 0⟩

/-- A sample poll. -/
def exPoll : Poll := ⟨10, ⟨1, ⟨2, 3⟩⟩, ⟨1, 1, 2, 2⟩, ⟨5, 5, 5⟩, ⟨100, 4⟩⟩

/-- A sample state whose bookkeeping fields are populated. -/
def exA : MaciState :=
  ⟨[some exPoll], ⟨2, blankStateLeafHash, 5, [blankStateLeafHash, 44]⟩,
    [blankStateLeaf], 2, 7, some true, some 3⟩

/-- A state agreeing with `exA` on depth, polls and leaves but differing in
`numSignUps`, the accumulator, and both processing-bookkeeping fields. -/
def exB : MaciState :=
  ⟨[some exPoll], ⟨2, blankStateLeafHash, 5, [blankStateLeafHash]⟩,
    [blankStateLeaf], 2, 99, none, none⟩

/-- A sample orchestration environment whose poll contract reports the
state tree as not merged. -/
def exEnvUnmerged : OrchEnv := ⟨3, ⟨9, 9⟩, false, 2, 5, some 7, [0], 1, 2, 3⟩

/-- A sample orchestration environment whose stored key decrypts to a
private key whose public key differs from the on-chain commitment. -/
def exEnvBadKey : OrchEnv := ⟨3, ⟨9, 9⟩, true, 2, 5, some 7, [0], 1, 2, 3⟩

/-! ## Helper lemmas -/

theorem StateLeaf.copy_eq (l : StateLeaf) : l.copy = l := by
  cases l with
  | mk pk b t => cases pk; rfl

theorem StateLeaf.equals_self (l : StateLeaf) : l.equals l = true := by
  simp [StateLeaf.equals]

theorem StateLeaf.toLeaf_toJSON (l : StateLeaf) : l.toJSON.toLeaf = l := by
  cases l with
  | mk pk b t => cases pk; rfl

theorem JsonStateLeaf.toJSON_toLeaf (j : JsonStateLeaf) :
    j.toLeaf.toJSON = j := rfl

theorem Poll.equals_refl (p : Poll) : p.equals p = true := by
  simp [Poll.equals]

theorem Poll.toPoll_toJSON (p : Poll) : p.toJSON.toPoll = p := rfl

theorem JsonPoll.toJSON_toPoll (j : JsonPoll) : j.toPoll.toJSON = j := rfl

theorem map_stateLeaf_copy (l : List StateLeaf) :
    l.map StateLeaf.copy = l := by
  induction l with
  | nil => rfl
  | cons a l ih => simp [ih, StateLeaf.copy_eq]

theorem mapOrThrow_map_some {β : Type} (f : Poll → β) (qs : List Poll) :
    mapOrThrow f (qs.map some) = some (qs.map f) := by
  induction qs with
  | nil => rfl
  | cons p qs ih => simp [mapOrThrow, ih]

theorem mapOrThrow_eq_some {β : Type} {f : Poll → β} :
    ∀ {l : List (Option Poll)} {bs : List β}, mapOrThrow f l = some bs →
      ∃ qs : List Poll, l = qs.map some ∧ bs = qs.map f
  | [], bs, h => by
      refine ⟨[], rfl, ?_⟩
      simpa [mapOrThrow] using h.symm
  | none :: _, _, h => by simp [mapOrThrow] at h
  | some p :: rest, bs, h => by
      simp only [mapOrThrow, Option.map_eq_some'] at h
      obtain ⟨bs1, hrest, rfl⟩ := h
      obtain ⟨qs, rfl, rfl⟩ := mapOrThrow_eq_some hrest
      exact ⟨p :: qs, rfl, rfl⟩

theorem IncrementalQuinTree.insert_eq_some
    {t t' : IncrementalQuinTree} {v : Nat} (h : t.insert v = some t') :
    t.leaves.length < t.capacity ∧ t' = { t with leaves := t.leaves ++ [v] } := by
  unfold IncrementalQuinTree.insert at h
  by_cases hlen : t.leaves.length < t.capacity
  · simp only [hlen, if_true, Option.some.injEq] at h
    exact ⟨hlen, h.symm⟩
  · simp [hlen] at h

theorem IncrementalQuinTree.insert_of_lt
    {t : IncrementalQuinTree} {v : Nat} (h : t.leaves.length < t.capacity) :
    t.insert v = some { t with leaves := t.leaves ++ [v] } := by
  simp [IncrementalQuinTree.insert, h]

theorem IncrementalQuinTree.insertMany_of_le :
    ∀ (vs : List Nat) (t : IncrementalQuinTree),
      t.leaves.length + vs.length ≤ t.capacity →
      t.insertMany vs = some { t with leaves := t.leaves ++ vs }
  | [], t, _ => by simp [IncrementalQuinTree.insertMany]
  | v :: vs, t, h => by
      have hlt : t.leaves.length < t.capacity := by
        simp only [List.length_cons] at h; omega
      have hcap : ({ t with leaves := t.leaves ++ [v] } :
          IncrementalQuinTree).leaves.length + vs.length ≤
          ({ t with leaves := t.leaves ++ [v] } :
            IncrementalQuinTree).capacity := by
        simp only [List.length_append, List.length_singleton,
          IncrementalQuinTree.capacity] at h ⊢
        simp only [List.length_cons] at h
        omega
      have := insertMany_of_le vs { t with leaves := t.leaves ++ [v] } hcap
      simp [IncrementalQuinTree.insertMany, insert_of_lt hlt, this,
        List.append_assoc]

theorem IncrementalQuinTree.insertMany_eq_some :
    ∀ {vs : List Nat} {t t' : IncrementalQuinTree},
      t.insertMany vs = some t' → t' = { t with leaves := t.leaves ++ vs }
  | [], t, t', h => by
      simp only [IncrementalQuinTree.insertMany, Option.some.injEq] at h
      simp [← h]
  | v :: vs, t, t', h => by
      simp only [IncrementalQuinTree.insertMany, Option.bind_eq_some] at h
      obtain ⟨t1, h1, h2⟩ := h
      obtain ⟨_, rfl⟩ := insert_eq_some h1
      have := insertMany_eq_some h2
      simp [this, List.append_assoc]

theorem pollsEqLoop_self (qs : List Poll) :
    pollsEqLoop (qs.map some) (qs.map some) = some true := by
  induction qs with
  | nil => rfl
  | cons p qs ih => simp [pollsEqLoop, Poll.equals_refl, ih]

theorem leavesEqLoop_self (l : List StateLeaf) :
    leavesEqLoop l l = some true := by
  induction l with
  | nil => rfl
  | cons a l ih => simp [leavesEqLoop, StateLeaf.equals_self, ih]

theorem MaciState.equals_of_components {S T : MaciState} {qs : List Poll}
    (hd : S.stateTreeDepth = T.stateTreeDepth)
    (hS : S.polls = qs.map some) (hT : T.polls = qs.map some)
    (hl : S.stateLeaves = T.stateLeaves) :
    S.equals T = some true := by
  unfold MaciState.equals
  rw [if_pos ⟨hd, by rw [hS, hT], by rw [hl]⟩, hS, hT, hl,
    pollsEqLoop_self, leavesEqLoop_self]

theorem digitChar_isDigit {d : Nat} (h : d < 10) :
    (Nat.digitChar d).isDigit = true := by
  interval_cases d <;> decide

theorem digitChar_toNat {d : Nat} (h : d < 10) :
    (Nat.digitChar d).toNat - 48 = d := by
  interval_cases d <;> decide

theorem foldl_digits :
    ∀ (l : List Nat), (∀ d ∈ l, d < 10) → ∀ acc : Nat,
      List.foldl (fun a c => a * 10 + (c.toNat - 48)) acc
          ((l.map Nat.digitChar).reverse)
        = acc * 10 ^ l.length + Nat.ofDigits 10 l
  | [], _, acc => by simp [Nat.ofDigits]
  | d :: l, h, acc => by
      have hd : d < 10 := h d (List.mem_cons_self d l)
      have hl : ∀ x ∈ l, x < 10 := fun x hx => h x (List.mem_cons_of_mem d hx)
      have ih := foldl_digits l hl acc
      simp only [List.map_cons, List.reverse_cons, List.foldl_append,
        List.foldl_cons, List.foldl_nil, ih, digitChar_toNat hd,
        Nat.ofDigits_cons, List.length_cons]
      ring

theorem parseIntTS_natToDecimal {n : Nat} (h : n ≠ 0) :
    parseIntTS (natToDecimal n) = some n := by
  have hne : Nat.digits 10 n ≠ [] := Nat.digits_ne_nil_iff_ne_zero.mpr h
  have hlt : ∀ d ∈ Nat.digits 10 n, d < 10 := fun d hd =>
    Nat.digits_lt_base (by norm_num) hd
  have hdata : (natToDecimal n).data
      = ((Nat.digits 10 n).map Nat.digitChar).reverse := rfl
  have hnonempty : (natToDecimal n).data ≠ [] := by
    rw [hdata]
    simp [hne]
  have hall : (natToDecimal n).data.all (fun c => c.isDigit) = true := by
    rw [hdata, List.all_eq_true]
    intro c hc
    rw [List.mem_reverse, List.mem_map] at hc
    obtain ⟨d, hd, rfl⟩ := hc
    exact digitChar_isDigit (hlt d hd)
  rw [parseIntTS, if_pos ⟨hnonempty, hall⟩, hdata,
    foldl_digits (Nat.digits 10 n) hlt 0]
  simp [Nat.ofDigits_digits]

theorem parseIntTS_empty : parseIntTS "" = none := rfl

theorem cpbpToString_roundTrip (c : Option Nat) :
    cpbpToString (parseIntTS (cpbpToString c)) = cpbpToString c := by
  match c with
  | none => rfl
  | some 0 => rfl
  | some (n + 1) =>
      rw [cpbpToString, parseIntTS_natToDecimal (Nat.succ_ne_zero n)]
      rfl

theorem MaciState.toJSON_eq_some {S : MaciState} {j : IJsonMaciState}
    (h : S.toJSON = some j) :
    ∃ qs : List Poll, S.polls = qs.map some ∧
      j = { stateTreeDepth := S.stateTreeDepth
            polls := qs.map Poll.toJSON
            stateLeaves := S.stateLeaves.map StateLeaf.toJSON
            pollBeingProcessed := S.pollBeingProcessed.getD false
            currentPollBeingProcessed :=
              cpbpToString S.currentPollBeingProcessed
            numSignUps := S.numSignUps } := by
  unfold MaciState.toJSON at h
  rw [Option.map_eq_some'] at h
  obtain ⟨ps, hm, rfl⟩ := h
  obtain ⟨qs, hpolls, rfl⟩ := mapOrThrow_eq_some hm
  exact ⟨qs, hpolls, rfl⟩

theorem MaciState.toJSON_of_polls {S : MaciState} {qs : List Poll}
    (h : S.polls = qs.map some) :
    S.toJSON = some
      { stateTreeDepth := S.stateTreeDepth
        polls := qs.map Poll.toJSON
        stateLeaves := S.stateLeaves.map StateLeaf.toJSON
        pollBeingProcessed := S.pollBeingProcessed.getD false
        currentPollBeingProcessed := cpbpToString S.currentPollBeingProcessed
        numSignUps := S.numSignUps } := by
  unfold MaciState.toJSON
  rw [h, mapOrThrow_map_some]
  rfl

theorem MaciState.fromJSON_spec (j : IJsonMaciState)
    (hcap : j.stateLeaves.length ≤ 5 ^ j.stateTreeDepth) :
    MaciState.fromJSON j = some
      { polls := j.polls.map fun jp => some jp.toPoll
        stateTree := ⟨j.stateTreeDepth, blankStateLeafHash, STATE_TREE_ARITY,
          blankStateLeafHash ::
            ((j.stateLeaves.drop 1).map fun jl => jl.toLeaf.hash)⟩
        stateLeaves := j.stateLeaves.map JsonStateLeaf.toLeaf
        stateTreeDepth := j.stateTreeDepth
        numSignUps := j.numSignUps
        pollBeingProcessed := some j.pollBeingProcessed
        currentPollBeingProcessed :=
          parseIntTS j.currentPollBeingProcessed } := by
  have h1 : (1 : Nat) ≤ 5 ^ j.stateTreeDepth :=
    Nat.one_le_pow _ _ (by norm_num)
  have hlen : ((MaciState.init j.stateTreeDepth).stateTree.leaves.length)
      + ((j.stateLeaves.drop 1).map fun jl => jl.toLeaf.hash).length
      ≤ (MaciState.init j.stateTreeDepth).stateTree.capacity := by
    simp only [MaciState.init, IncrementalQuinTree.capacity,
      STATE_TREE_ARITY, List.length_map, List.length_drop,
      List.length_singleton]
    omega
  unfold MaciState.fromJSON
  rw [IncrementalQuinTree.insertMany_of_le _ _ hlen]
  rfl

theorem MaciState.roundTrip_core {S : MaciState} {j : IJsonMaciState}
    (hj : S.toJSON = some j)
    (hcap : j.stateLeaves.length ≤ 5 ^ j.stateTreeDepth) :
    ∃ S', MaciState.fromJSON j = some S' ∧
      S'.stateTreeDepth = S.stateTreeDepth ∧
      S'.stateLeaves = S.stateLeaves ∧
      S'.polls = S.polls ∧
      S'.toJSON = some j := by
  obtain ⟨qs, hpolls, rfl⟩ := toJSON_eq_some hj
  refine ⟨_, fromJSON_spec _ hcap, rfl, ?_, ?_, ?_⟩
  · simp [List.map_map, Function.comp_def, StateLeaf.toLeaf_toJSON]
  · simp [List.map_map, Function.comp_def, Poll.toPoll_toJSON, hpolls]
  · refine (@MaciState.toJSON_of_polls _ qs ?_).trans ?_
    · simp [List.map_map, Function.comp_def, Poll.toPoll_toJSON]
    · simp [List.map_map, Function.comp_def, JsonStateLeaf.toJSON_toLeaf,
        cpbpToString_roundTrip]

theorem BuiltSD.invariant {S : MaciState} (h : BuiltSD S) :
    (∃ qs : List Poll, S.polls = qs.map some) ∧
    S.stateTree.arity = 5 ∧ S.stateTree.depth = S.stateTreeDepth ∧
    S.stateTree.leaves.length = S.stateLeaves.length ∧
    S.stateLeaves.length ≤ 5 ^ S.stateTreeDepth := by
  induction h with
  | init d =>
      exact ⟨⟨[], rfl⟩, rfl, rfl, rfl, Nat.one_le_pow _ _ (by norm_num)⟩
  | signUp _ hok ih =>
      obtain ⟨⟨qs, hqs⟩, har, hdep, hlen, hle⟩ := ih
      rename_i S0 S' pk b t i _
      unfold MaciState.signUp at hok
      cases hins : S0.stateTree.insert (StateLeaf.hash ⟨pk, b, t⟩) with
      | none => simp only [hins] at hok; cases hok
      | some tree =>
          simp only [hins, Except.ok.injEq, Prod.mk.injEq] at hok
          obtain ⟨rfl, rfl⟩ := hok
          obtain ⟨hlt, rfl⟩ := IncrementalQuinTree.insert_eq_some hins
          refine ⟨⟨qs, hqs⟩, har, hdep, ?_, ?_⟩
          · simp [hlen]
          · rw [IncrementalQuinTree.capacity, har, hdep, hlen] at hlt
            simp only [List.length_append, List.length_singleton]
            omega
  | deployPoll e mv td mb kp _ ih =>
      obtain ⟨⟨qs, hqs⟩, har, hdep, hlen, hle⟩ := ih
      refine ⟨⟨qs ++ [⟨e, kp, td,
        ⟨mb, STATE_TREE_ARITY ^ td.intStateTreeDepth,
          STATE_TREE_ARITY ^ td.intStateTreeDepth⟩, mv⟩], ?_⟩,
        har, hdep, hlen, hle⟩
      simp [MaciState.deployPoll, hqs]

theorem Reachable.blankHead {S : MaciState} (h : Reachable S) :
    S.stateLeaves.head? = some blankStateLeaf ∧
    S.stateTree.leaves.head? = some blankStateLeafHash := by
  induction h with
  | init d => exact ⟨rfl, rfl⟩
  | signUp _ hok ih =>
      rename_i S0 S' pk b t i _
      unfold MaciState.signUp at hok
      cases hins : S0.stateTree.insert (StateLeaf.hash ⟨pk, b, t⟩) with
      | none => simp only [hins] at hok; cases hok
      | some tree =>
          simp only [hins, Except.ok.injEq, Prod.mk.injEq] at hok
          obtain ⟨rfl, rfl⟩ := hok
          obtain ⟨_, rfl⟩ := IncrementalQuinTree.insert_eq_some hins
          obtain ⟨ih1, ih2⟩ := ih
          constructor
          · cases hl : S0.stateLeaves with
            | nil => rw [hl] at ih1; cases ih1
            | cons a rest => rw [hl] at ih1; simpa using ih1
          · cases hl : S0.stateTree.leaves with
            | nil => rw [hl] at ih2; cases ih2
            | cons a rest => rw [hl] at ih2; simpa using ih2
  | deployPoll e mv td mb kp _ ih => exact ih
  | deployNullPoll _ ih => exact ih
  | copy _ hcopy ih =>
      unfold MaciState.copy at hcopy
      rw [Option.map_eq_some'] at hcopy
      obtain ⟨ps, _, rfl⟩ := hcopy
      exact ⟨by simpa [map_stateLeaf_copy] using ih.1, rfl⟩
  | roundTrip _ hj hfrom ih =>
      rename_i S0 S' j _
      obtain ⟨qs, hpolls, rfl⟩ := MaciState.toJSON_eq_some hj
      unfold MaciState.fromJSON at hfrom
      rw [Option.map_eq_some'] at hfrom
      obtain ⟨tree, htree, rfl⟩ := hfrom
      have hres := IncrementalQuinTree.insertMany_eq_some htree
      refine ⟨?_, ?_⟩
      · show ((S0.stateLeaves.map StateLeaf.toJSON).map
            JsonStateLeaf.toLeaf).head? = some blankStateLeaf
        have heq : (S0.stateLeaves.map StateLeaf.toJSON).map
            JsonStateLeaf.toLeaf = S0.stateLeaves := by
          simp [List.map_map, Function.comp_def, StateLeaf.toLeaf_toJSON]
        rw [heq]
        exact ih.1
      · show tree.leaves.head? = some blankStateLeafHash
        rw [hres]
        rfl

theorem MaciState.signUp_ok {S : MaciState} {pk : PubKey} {b t : Nat}
    (hlt : S.stateTree.leaves.length < S.stateTree.capacity) :
    ∃ S', S.signUp pk b t = .ok (S', S.stateLeaves.length) ∧
      S'.stateLeaves = S.stateLeaves ++ [(⟨pk, b, t⟩ : StateLeaf)] ∧
      S'.stateTree.leaves
        = S.stateTree.leaves ++ [StateLeaf.hash ⟨pk, b, t⟩] ∧
      S'.stateTree.depth = S.stateTree.depth ∧
      S'.stateTree.arity = S.stateTree.arity ∧
      S'.stateTree.zeroValue = S.stateTree.zeroValue ∧
      S'.numSignUps = S.numSignUps + 1 ∧
      S'.stateTreeDepth = S.stateTreeDepth ∧
      S'.polls = S.polls := by
  have hins := IncrementalQuinTree.insert_of_lt
    (v := StateLeaf.hash ⟨pk, b, t⟩) hlt
  refine ⟨{ S with
      numSignUps := S.numSignUps + 1
      stateTree := { S.stateTree with
        leaves := S.stateTree.leaves ++ [StateLeaf.hash ⟨pk, b, t⟩] }
      stateLeaves := S.stateLeaves ++ [StateLeaf.copy ⟨pk, b, t⟩] },
    ?_, ?_, rfl, rfl, rfl, rfl, rfl, rfl, rfl⟩
  · unfold MaciState.signUp
    rw [hins]
  · simp [StateLeaf.copy_eq]

theorem MaciState.signUpMany_spec :
    ∀ (inputs : List (PubKey × Nat × Nat)) (S : MaciState),
      S.stateTree.leaves.length + inputs.length ≤ S.stateTree.capacity →
      ∃ S', S.signUpMany inputs
          = .ok (S', List.range' S.stateLeaves.length inputs.length) ∧
        S'.stateLeaves = S.stateLeaves ++ inputs.map mkLeaf ∧
        S'.stateTree.leaves
          = S.stateTree.leaves ++ inputs.map (fun x => (mkLeaf x).hash) ∧
        S'.numSignUps = S.numSignUps + inputs.length ∧
        S'.stateTreeDepth = S.stateTreeDepth
  | [], S, _ => ⟨S, by simp [MaciState.signUpMany]⟩
  | (pk, b, t) :: rest, S, h => by
      have hlt : S.stateTree.leaves.length < S.stateTree.capacity := by
        simp only [List.length_cons] at h
        omega
      obtain ⟨S1, hsign, hl1, ht1, hdep1, har1, _, hn1, hsd1, _⟩ :=
        @MaciState.signUp_ok S pk b t hlt
      have hcap1 : S1.stateTree.leaves.length + rest.length
          ≤ S1.stateTree.capacity := by
        simp only [IncrementalQuinTree.capacity] at h ⊢
        rw [ht1, hdep1, har1]
        simp only [List.length_append, List.length_singleton,
          List.length_cons, List.length_nil] at h ⊢
        omega
      obtain ⟨S2, hrec, hl2, ht2, hn2, hd2⟩ :=
        MaciState.signUpMany_spec rest S1 hcap1
      have hlen1 : S1.stateLeaves.length = S.stateLeaves.length + 1 := by
        rw [hl1]
        simp
      refine ⟨S2, ?_, ?_, ?_, ?_, ?_⟩
      · simp only [MaciState.signUpMany, hsign, hrec, hlen1]
        simp [List.range'_succ]
      · rw [hl2, hl1]
        simp [mkLeaf]
      · rw [ht2, ht1]
        simp [mkLeaf]
      · rw [hn2, hn1]
        simp only [List.length_cons]
        omega
      · rw [hd2, hsd1]

theorem pollsEqLoop_of_forall₂ :
    ∀ {l₁ l₂ : List (Option Poll)},
      List.Forall₂ (fun o₁ o₂ => ∃ p q, o₁ = some p ∧ o₂ = some q ∧
        Poll.equals p q = true) l₁ l₂ →
      pollsEqLoop l₁ l₂ = some true
  | [], [], _ => rfl
  | _ :: _, _ :: _, List.Forall₂.cons hx hrest => by
      obtain ⟨p, q, rfl, rfl, hpq⟩ := hx
      simp [pollsEqLoop, hpq, pollsEqLoop_of_forall₂ hrest]

theorem leavesEqLoop_of_forall₂ :
    ∀ {l₁ l₂ : List StateLeaf},
      List.Forall₂ (fun a b => StateLeaf.equals a b = true) l₁ l₂ →
      leavesEqLoop l₁ l₂ = some true
  | [], [], _ => rfl
  | _ :: _, _ :: _, List.Forall₂.cons hx hrest => by
      simp [leavesEqLoop, hx, leavesEqLoop_of_forall₂ hrest]

/-! ## Claims -/

/-- Claim C1, counterexample: on a depth-1 state with one real sign-up,
`copy` yields a state whose accumulator holds only the blank leaf — its
leaf sequence and root differ from the original's — so the copy's
accumulator is not re-seeded identically as the claim states. -/
theorem C1_counterexample :
    (MaciState.init 1).signUp exPk 100 7 = .ok (exS1, 1) ∧
    exS1.copy = some exC1 ∧
    exC1.stateTree.leaves ≠ exS1.stateTree.leaves ∧
    exC1.stateTree.root ≠ exS1.stateTree.root := by
  refine ⟨rfl, by decide, by decide, by decide⟩

/-- Claim C1, amended: `copy` deep-copies the state leaves and the polls
(failing on a registry holding a `null` poll), and — values being
immutable in this embedding — later operations on the copy cannot affect
the original; but the copy's accumulator is not re-seeded from the
original: it is exactly a freshly constructed accumulator holding only the
blank leaf, and the copy's `numSignUps` is reset to 1 and its
processing-bookkeeping fields to unset. -/
theorem copy_shallow_accumulator (S C : MaciState) (h : S.copy = some C) :
    C.stateLeaves = S.stateLeaves ∧
    C.polls = S.polls ∧
    C.stateTreeDepth = S.stateTreeDepth ∧
    C.stateTree = (MaciState.init S.stateTreeDepth).stateTree ∧
    C.numSignUps = 1 ∧
    C.pollBeingProcessed = none ∧
    C.currentPollBeingProcessed = none := by
  unfold MaciState.copy at h
  rw [Option.map_eq_some'] at h
  obtain ⟨ps, hm, rfl⟩ := h
  obtain ⟨qs, hq, rfl⟩ := mapOrThrow_eq_some hm
  refine ⟨map_stateLeaf_copy _, ?_, rfl, rfl, rfl, rfl, rfl⟩
  show List.map some (List.map Poll.copy qs) = S.polls
  rw [hq]
  simp [Poll.copy]

/-- Claim C1, witness for the amended theorem at `exS1`. -/
theorem copy_shallow_accumulator_witness :
    exC1.stateLeaves = exS1.stateLeaves ∧
    exC1.polls = exS1.polls ∧
    exC1.stateTreeDepth = exS1.stateTreeDepth ∧
    exC1.stateTree = (MaciState.init exS1.stateTreeDepth).stateTree ∧
    exC1.numSignUps = 1 ∧
    exC1.pollBeingProcessed = none ∧
    exC1.currentPollBeingProcessed = none :=
  copy_shallow_accumulator exS1 exC1 (by decide)

/-- Claim C2: for every state built by construction followed by any
sequence of successful sign-ups and poll deployments, serializing and then
deserializing yields a state that is `equals`-equal to the original
(nested polls compared pairwise). -/
theorem serialize_roundtrip_equals (S : MaciState) (h : BuiltSD S) :
    ∃ j S', S.toJSON = some j ∧ MaciState.fromJSON j = some S' ∧
      S'.equals S = some true := by
  obtain ⟨⟨qs, hqs⟩, har, hdep, hlen, hle⟩ := BuiltSD.invariant h
  have hj := MaciState.toJSON_of_polls hqs
  have hcap : (S.stateLeaves.map StateLeaf.toJSON).length
      ≤ 5 ^ S.stateTreeDepth := by
    rw [List.length_map]
    exact hle
  obtain ⟨S', hfrom, hd, hlv, hps, hj2⟩ :=
    MaciState.roundTrip_core hj hcap
  refine ⟨_, S', hj, hfrom, ?_⟩
  exact MaciState.equals_of_components hd (hps.trans hqs) hqs hlv

/-- Claim C2, witness at the one-sign-up state `exS1`. -/
theorem serialize_roundtrip_equals_witness :
    ∃ j S', exS1.toJSON = some j ∧ MaciState.fromJSON j = some S' ∧
      S'.equals exS1 = some true :=
  serialize_roundtrip_equals exS1
    (BuiltSD.signUp (BuiltSD.init 1)
      (show (MaciState.init 1).signUp exPk 100 7 = .ok (exS1, 1) from rfl))

/-- Claim C3, counterexample: `exS1` satisfies
`stateLeaves.length = numSignUps`, but its `copy` has two state leaves and
`numSignUps = 1`, so the invariant is not preserved by the `copy`
operation. -/
theorem C3_counterexample :
    (MaciState.init 1).signUp exPk 100 7 = .ok (exS1, 1) ∧
    exS1.stateLeaves.length = exS1.numSignUps ∧
    exS1.copy = some exC1 ∧
    exC1.stateLeaves.length ≠ exC1.numSignUps := by
  refine ⟨rfl, by decide, by decide, by decide⟩

/-- Claim C3, amended: `stateLeaves.length = numSignUps` holds after
construction and is preserved by `signUp`, `deployPoll`, `deployNullPoll`
and by deserializing a serialized state, but not by `copy`: a copy keeps
every state leaf while resetting `numSignUps` to 1, so the invariant fails
for a copy of any state with more than one leaf. -/
theorem lenInv_preserved_except_copy :
    (∀ d : Nat, (MaciState.init d).stateLeaves.length
      = (MaciState.init d).numSignUps) ∧
    (∀ (S : MaciState) (pk : PubKey) (b t : Nat) (S' : MaciState) (i : Nat),
      S.stateLeaves.length = S.numSignUps → S.signUp pk b t = .ok (S', i) →
      S'.stateLeaves.length = S'.numSignUps) ∧
    (∀ (S : MaciState) (e : Nat) (mv : MaxValues) (td : TreeDepths)
      (mb : Nat) (kp : Keypair),
      S.stateLeaves.length = S.numSignUps →
      (S.deployPoll e mv td mb kp).1.stateLeaves.length
        = (S.deployPoll e mv td mb kp).1.numSignUps) ∧
    (∀ S : MaciState, S.stateLeaves.length = S.numSignUps →
      S.deployNullPoll.stateLeaves.length = S.deployNullPoll.numSignUps) ∧
    (∀ (S : MaciState) (j : IJsonMaciState) (S' : MaciState),
      S.stateLeaves.length = S.numSignUps → S.toJSON = some j →
      MaciState.fromJSON j = some S' →
      S'.stateLeaves.length = S'.numSignUps) ∧
    (∀ S C : MaciState, S.copy = some C →
      C.numSignUps = 1 ∧ C.stateLeaves.length = S.stateLeaves.length) := by
  refine ⟨fun d => rfl, ?_, fun S e mv td mb kp h => h, fun S h => h,
    ?_, ?_⟩
  · intro S pk b t S' i h hok
    unfold MaciState.signUp at hok
    cases hins : S.stateTree.insert (StateLeaf.hash ⟨pk, b, t⟩) with
    | none => simp only [hins] at hok; cases hok
    | some tree =>
        simp only [hins, Except.ok.injEq, Prod.mk.injEq] at hok
        obtain ⟨rfl, rfl⟩ := hok
        simp [h]
  · intro S j S' h hj hfrom
    obtain ⟨qs, hqs, rfl⟩ := MaciState.toJSON_eq_some hj
    unfold MaciState.fromJSON at hfrom
    rw [Option.map_eq_some'] at hfrom
    obtain ⟨tree, _, rfl⟩ := hfrom
    simpa using h
  · intro S C h
    unfold MaciState.copy at h
    rw [Option.map_eq_some'] at h
    obtain ⟨ps, hm, rfl⟩ := h
    exact ⟨rfl, by rw [map_stateLeaf_copy]⟩

/-- Claim C3, witness: the invariant after construction at depth 3, and
the copy clause applied to `exS1`. -/
theorem lenInv_preserved_except_copy_witness :
    (MaciState.init 3).stateLeaves.length = (MaciState.init 3).numSignUps ∧
    (exC1.numSignUps = 1 ∧
      exC1.stateLeaves.length = exS1.stateLeaves.length) :=
  ⟨lenInv_preserved_except_copy.1 3,
    lenInv_preserved_except_copy.2.2.2.2.2 exS1 exC1 (by decide)⟩

/-- Claim C4: replaying any sequence of sign-ups on a freshly constructed
state appends the leaves in order, returns the indices 1, 2, …, N (the
blank leaf occupies index 0), increments `numSignUps` once per call, and
leaves the accumulator's log as the blank-leaf hash followed by the leaf
hashes in sign-up order. -/
theorem signUp_sequence_spec (d : Nat) (inputs : List (PubKey × Nat × Nat))
    (h : inputs.length + 1 ≤ 5 ^ d) :
    ∃ S idxs, (MaciState.init d).signUpMany inputs = .ok (S, idxs) ∧
      idxs = List.range' 1 inputs.length ∧
      S.stateLeaves = blankStateLeaf :: inputs.map mkLeaf ∧
      S.stateTree.leaves
        = blankStateLeafHash :: inputs.map (fun x => (mkLeaf x).hash) ∧
      S.numSignUps = inputs.length + 1 := by
  have hcap : (MaciState.init d).stateTree.leaves.length + inputs.length
      ≤ (MaciState.init d).stateTree.capacity := by
    simp only [MaciState.init, IncrementalQuinTree.capacity,
      STATE_TREE_ARITY, List.length_singleton]
    omega
  obtain ⟨S, hrun, hl, ht, hn, _⟩ :=
    MaciState.signUpMany_spec inputs _ hcap
  refine ⟨S, _, hrun, rfl, ?_, ?_, ?_⟩
  · rw [hl]
    rfl
  · rw [ht]
    rfl
  · rw [hn]
    show 1 + inputs.length = inputs.length + 1
    omega

/-- Claim C4, witness: two sign-ups at depth 1. -/
theorem signUp_sequence_spec_witness :
    ∃ S idxs, (MaciState.init 1).signUpMany [(exPk, 100, 7), (exPk2, 50, 8)]
        = .ok (S, idxs) ∧
      idxs = List.range' 1 [(exPk, 100, 7), (exPk2, 50, 8)].length ∧
      S.stateLeaves = blankStateLeaf
        :: [(exPk, 100, 7), (exPk2, 50, 8)].map mkLeaf ∧
      S.stateTree.leaves = blankStateLeafHash
        :: [(exPk, 100, 7), (exPk2, 50, 8)].map (fun x => (mkLeaf x).hash) ∧
      S.numSignUps = [(exPk, 100, 7), (exPk2, 50, 8)].length + 1 :=
  signUp_sequence_spec 1 [(exPk, 100, 7), (exPk2, 50, 8)] (by decide)

/-- Claim C5, counterexample: a reachable state (four sign-ups filling the
depth-1 accumulator, then `copy` — which re-seeds only the blank leaf —
then one more sign-up accepted by the shallow copy) serializes to a record
with six leaves; deserializing that record re-inserts the leaves into a
fresh depth-1 accumulator of capacity five and throws, so
`serialize(deserialize(r))` does not reproduce `r` — deserialization
fails. -/
theorem C5_counterexample :
    (MaciState.init 1).signUpMany
        [(exPk, 100, 7), (exPk, 100, 7), (exPk, 100, 7), (exPk, 100, 7)]
      = .ok (exFull, [1, 2, 3, 4]) ∧
    exFull.copy = some exFullCopy ∧
    exFullCopy.signUp exPk2 50 8 = .ok (exOver, 5) ∧
    exOver.toJSON = some exOverJson ∧
    MaciState.fromJSON exOverJson = none := by
  refine ⟨rfl, by decide, rfl, by decide, by decide⟩

/-- Claim C5, amended: for every serialized record whose leaf count fits
the accumulator capacity of its recorded depth (which holds for every
record serialized from a state not driven past capacity through the
shallow-copy anomaly), deserialization succeeds and re-serializing
reproduces the record exactly, for every value of every field including
`pollBeingProcessed` and `currentPollBeingProcessed`. -/
theorem serialize_of_deserialize_id (S : MaciState) (j : IJsonMaciState)
    (hj : S.toJSON = some j)
    (hcap : j.stateLeaves.length ≤ 5 ^ j.stateTreeDepth) :
    ∃ S', MaciState.fromJSON j = some S' ∧ S'.toJSON = some j := by
  obtain ⟨S', h1, _, _, _, h2⟩ := MaciState.roundTrip_core hj hcap
  exact ⟨S', h1, h2⟩

/-- Claim C5, witness for the amended theorem at `exS1`'s record. -/
theorem serialize_of_deserialize_id_witness :
    ∃ S', MaciState.fromJSON exS1Json = some S' ∧
      S'.toJSON = some exS1Json :=
  serialize_of_deserialize_id exS1 exS1Json (by decide) (by decide)

/-- Claim C6: every reachable state — in particular every freshly
constructed one and every one produced by deserializing a serialized
reachable state — has the blank leaf at index 0 of `stateLeaves`, the
blank leaf hashes to the protocol-wide constant, and the accumulator's
leaf at position 0 is that constant. -/
theorem blank_leaf_invariant (S : MaciState) (h : Reachable S) :
    S.stateLeaves.head? = some blankStateLeaf ∧
    blankStateLeaf.hash = blankStateLeafHash ∧
    S.stateTree.leaves.head? = some blankStateLeafHash :=
  ⟨(Reachable.blankHead h).1, rfl, (Reachable.blankHead h).2⟩

/-- Claim C6, witness at a freshly constructed depth-4 state. -/
theorem blank_leaf_invariant_witness :
    (MaciState.init 4).stateLeaves.head? = some blankStateLeaf ∧
    blankStateLeaf.hash = blankStateLeafHash ∧
    (MaciState.init 4).stateTree.leaves.head? = some blankStateLeafHash :=
  blank_leaf_invariant (MaciState.init 4) (Reachable.init 4)

/-- Claim C7: on a well-formed accumulator (quinary, depth equal to the
state's depth), `signUp` fails with `CapacityExceeded` exactly when the
accumulator already holds `ARITY ^ stateTreeDepth` leaves, and succeeds on
every state below capacity. -/
theorem signUp_capacity (S : MaciState) (pk : PubKey) (b t : Nat)
    (har : S.stateTree.arity = STATE_TREE_ARITY)
    (hdep : S.stateTree.depth = S.stateTreeDepth) :
    (S.stateTree.leaves.length = STATE_TREE_ARITY ^ S.stateTreeDepth →
      S.signUp pk b t = .error .capacityExceeded) ∧
    (S.stateTree.leaves.length < STATE_TREE_ARITY ^ S.stateTreeDepth →
      ∃ S' i, S.signUp pk b t = .ok (S', i)) := by
  constructor
  · intro hfull
    have hnot : ¬ S.stateTree.leaves.length < S.stateTree.capacity := by
      simp only [IncrementalQuinTree.capacity]
      rw [har, hdep]
      omega
    unfold MaciState.signUp IncrementalQuinTree.insert
    rw [if_neg hnot]
  · intro hlt
    have hlt2 : S.stateTree.leaves.length < S.stateTree.capacity := by
      simp only [IncrementalQuinTree.capacity]
      rw [har, hdep]
      exact hlt
    obtain ⟨S', hok, _⟩ := @MaciState.signUp_ok S pk b t hlt2
    exact ⟨S', _, hok⟩

/-- Claim C7, witness: a depth-0 state is at capacity after construction
and rejects a sign-up; a depth-1 state is below capacity and accepts
one. -/
theorem signUp_capacity_witness :
    (MaciState.init 0).signUp exPk 1 1 = .error .capacityExceeded ∧
    ∃ S' i, (MaciState.init 1).signUp exPk 1 1 = .ok (S', i) :=
  ⟨(signUp_capacity (MaciState.init 0) exPk 1 1 rfl rfl).1 (by decide),
    (signUp_capacity (MaciState.init 1) exPk 1 1 rfl rfl).2 (by decide)⟩

/-- Claim C8: whenever the poll contract reports the state tree as not
merged (and the poll address resolved, so the flag is actually read),
`generate` fails with the not-merged-state-tree error and the proof
backend is never invoked. -/
theorem generate_gated_on_state_merged (pollId : Nat) (env : OrchEnv)
    (haddr : env.pollAddress ≠ 0) (hmerged : env.stateMerged = false) :
    (generate pollId env).1 = .error .notMergedStateTree ∧
    OrchEffect.backendMpProofs ∉ (generate pollId env).2 ∧
    OrchEffect.backendTallyProofs ∉ (generate pollId env).2 := by
  unfold generate
  simp [haddr, hmerged]

/-- Claim C8, witness at a concrete unmerged environment. -/
theorem generate_gated_on_state_merged_witness :
    (generate 0 exEnvUnmerged).1 = .error .notMergedStateTree ∧
    OrchEffect.backendMpProofs ∉ (generate 0 exEnvUnmerged).2 ∧
    OrchEffect.backendTallyProofs ∉ (generate 0 exEnvUnmerged).2 :=
  generate_gated_on_state_merged 0 exEnvUnmerged (by decide) (by decide)

/-- Claim C9: whenever the stored coordinator key decrypts successfully
but the public key derived from it differs from the on-chain committed
one (the earlier gates having passed so the key step is reached),
`generate` fails with the private-key-mismatch error and no chain event
scan (state reconstruction) is ever performed. -/
theorem generate_key_mismatch_before_scan (pollId : Nat) (env : OrchEnv)
    (sk : Nat) (haddr : env.pollAddress ≠ 0)
    (hmerged : env.stateMerged = true) (hroot : env.mainRoot ≠ 0)
    (hkey : env.decryptedKey = some sk)
    (hmis : derivePubKey sk ≠ env.coordinatorPubKeyOnChain) :
    (generate pollId env).1 = .error .privateKeyMismatch ∧
    OrchEffect.eventScan ∉ (generate pollId env).2 := by
  unfold generate
  simp [haddr, hmerged, hroot, hkey, hmis]

/-- Claim C9, witness at a concrete environment with a mismatching key. -/
theorem generate_key_mismatch_before_scan_witness :
    (generate 0 exEnvBadKey).1 = .error .privateKeyMismatch ∧
    OrchEffect.eventScan ∉ (generate 0 exEnvBadKey).2 :=
  generate_key_mismatch_before_scan 0 exEnvBadKey 7 (by decide) (by decide)
    (by decide) (by decide) (by decide)

/-- Claim C10: `equals` returns `true` for any two states agreeing on tree
depth, poll count and leaf count whose (non-null) polls and leaves are
pairwise `equals`-equal — whatever their `numSignUps`, accumulators,
`pollBeingProcessed` or `currentPollBeingProcessed`, since none of those
fields is inspected. -/
theorem equals_ignores_bookkeeping (S T : MaciState)
    (hd : S.stateTreeDepth = T.stateTreeDepth)
    (hp : S.polls.length = T.polls.length)
    (hl : S.stateLeaves.length = T.stateLeaves.length)
    (hpolls : List.Forall₂ (fun o₁ o₂ => ∃ p q, o₁ = some p ∧ o₂ = some q ∧
      Poll.equals p q = true) S.polls T.polls)
    (hleaves : List.Forall₂ (fun a b => StateLeaf.equals a b = true)
      S.stateLeaves T.stateLeaves) :
    S.equals T = some true := by
  unfold MaciState.equals
  rw [if_pos ⟨hd, hp, hl⟩, pollsEqLoop_of_forall₂ hpolls]
  exact leavesEqLoop_of_forall₂ hleaves

/-- Claim C10, witness: two states differing in `numSignUps`, accumulator
contents, `pollBeingProcessed` and `currentPollBeingProcessed` that
`equals` nevertheless reports equal. -/
theorem equals_ignores_bookkeeping_witness :
    exA.numSignUps ≠ exB.numSignUps ∧
    exA.stateTree ≠ exB.stateTree ∧
    exA.pollBeingProcessed ≠ exB.pollBeingProcessed ∧
    exA.currentPollBeingProcessed ≠ exB.currentPollBeingProcessed ∧
    exA.equals exB = some true := by
  refine ⟨by decide, by decide, by decide, by decide, ?_⟩
  refine equals_ignores_bookkeeping exA exB rfl rfl rfl ?_ ?_
  · exact List.Forall₂.cons ⟨exPoll, exPoll, rfl, rfl, by decide⟩
      List.Forall₂.nil
  · exact List.Forall₂.cons (by decide) List.Forall₂.nil

end Maci
